import Mathlib

/-!
Verification of the aardwolf static-analysis core and trace runtime.

The definitions below are a shallow embedding of the C / C++ sources:

* `src/runtime/runtime.c` — the trace runtime (byte stream model);
* `src/frontends/llvm/include/Statement.h`, `lib/Statement.cpp` — the
  `Access` data model, its equality, hashing and the statement flags;
* `src/frontends/llvm/lib/StatementDetection.cpp` — access resolution,
  the backward use walk (`findInputs`) and the statement classifier
  (`runOnInstr`), plus the cross-basic-block successor walk;
* `src/frontends/llvm/lib/StatementRepository.cpp` — id assignment;
* `src/frontends/llvm/lib/StaticData.cpp`, `cli/Main.cpp` — the binary
  serializer and the driver's error paths.

Machine integers are modelled as `Nat`/`Int` with explicit reductions
modulo `2 ^ w` where the C code truncates; files and streams are lists of
byte values.
-/

namespace Aardwolf

/-! ### Byte-level helpers (little-endian encodings, x86-64 memory layout) -/

/-- Little-endian bytes of a 64-bit unsigned value (`fwrite` of a `uint64_t`). -/
def u64le (n : Nat) : List Nat :=
  (List.range 8).map (fun i => n / 2 ^ (8 * i) % 256)

/-- Little-endian bytes of a 32-bit unsigned value. -/
def u32le (n : Nat) : List Nat :=
  (List.range 4).map (fun i => n / 2 ^ (8 * i) % 256)

/-- Little-endian bytes of a 32-bit signed value (two's complement memory image). -/
def i32le (v : Int) : List Nat :=
  u32le (v % 2 ^ 32).toNat

/-! ### Runtime trace model (`src/runtime/runtime.c`, default build flags)

The process-wide stream `__aardwolf_fd` is modelled as `Option (List Nat)`:
`none` is the not-yet-opened stream (`__aardwolf_fd == NULL`), and
`some bytes` is the opened file together with everything written to it so
far.  `fopen(filepath, "w")` plus `__write_header` on first use become the
transition from `none` to `some traceHeader`.
-/

/-- Bytes of `__write_header`: `fputs("AARD/D", fd)` then
`fputc(FILE_FORMAT_VERSION + ASCII_ZERO, fd)` with version 1, i.e. byte 0x31. -/
def traceHeader : List Nat :=
  [0x41, 0x41, 0x52, 0x44, 0x2F, 0x44, 0x31]

/-- `__aardwolf_get_fd`: content of the stream after ensuring it is open
(opening writes the header). -/
def aardwolf_get_fd (s : Option (List Nat)) : List Nat :=
  match s with
  | none => traceHeader
  | some content => content

/-- Path of the trace file computed by `__aardwolf_get_fd` from the
`AARDWOLF_DATA_DEST` environment variable: the literal in runtime.c is
`char filename[] = "aard.trace"`. -/
def tracePath (destDir : Option String) : String :=
  match destDir with
  | none => "aard.trace"
  | some d => d ++ "/" ++ "aard.trace"

/-- `__aardwolf_write_data`: one token byte followed by the raw bytes of the
value, appended to the (lazily opened) stream. -/
def aardwolf_write_data (token : Nat) (payload : List Nat)
    (s : Option (List Nat)) : Option (List Nat) :=
  some (aardwolf_get_fd s ++ token :: payload)

/-- `aardwolf_write_statement` as defined in runtime.c line 77: it takes a
single `statement_ref_t` (a `uint64_t`) and writes token 0xFF followed by
the 8 bytes of that one value.  (runtime.h declares the function with two
parameters `(file_ref_t, statement_ref_t)`; the definition has one.) -/
def aardwolf_write_statement (id : Nat) (s : Option (List Nat)) :
    Option (List Nat) :=
  aardwolf_write_data 0xFF (u64le (id % 2 ^ 64)) s

/-- `aardwolf_write_external`: token 0xFE, the bytes of the name, then a
zero terminator. -/
def aardwolf_write_external (name : List Nat) (s : Option (List Nat)) :
    Option (List Nat) :=
  some (aardwolf_get_fd s ++ 0xFE :: (name ++ [0]))

/-- `aardwolf_write_data_i32`: token 0x11 + 2 = 0x13 (`TOKEN_DATA_I32`),
payload the 4 bytes of the `int32_t`. -/
def aardwolf_write_data_i32 (v : Int) (s : Option (List Nat)) :
    Option (List Nat) :=
  aardwolf_write_data 0x13 (i32le v) s

/-- One call of the runtime trace API, for stating stream invariants. -/
inductive ApiCall where
  | stmt (id : Nat)
  | ext (name : List Nat)
  | dataI32 (v : Int)
  deriving DecidableEq

/-- Run a sequence of runtime API calls against a stream state. -/
def runCalls (calls : List ApiCall) (s : Option (List Nat)) :
    Option (List Nat) :=
  match calls with
  | [] => s
  | c :: rest =>
      runCalls rest
        (match c with
         | .stmt id => aardwolf_write_statement id s
         | .ext name => aardwolf_write_external name s
         | .dataI32 v => aardwolf_write_data_i32 v s)

/-- The trace produced by the C8/C1 scenario
`aardwolf_write_external("t1"); aardwolf_write_statement(7, 3);
aardwolf_write_data_i32(42);` on a fresh stream.  runtime.c's definition of
`aardwolf_write_statement` consumes a single 64-bit argument, so the call
only transmits the first one (7). -/
def scenarioTrace : List Nat :=
  (runCalls [.ext [0x74, 0x31], .stmt 7, .dataI32 42] none).getD []

/-- The byte sequence the claim expects for the scenario: header, external
record, statement record carrying both ids, i32 record. -/
def scenarioClaimBytes : List Nat :=
  traceHeader ++ [0xFE, 0x74, 0x31, 0x00] ++
    0xFF :: (u64le 7 ++ u64le 3) ++ 0x13 :: i32le 42

/-- The byte sequence the code actually produces: the statement record
carries only the 8 bytes of the first argument. -/
def scenarioCodeBytes : List Nat :=
  traceHeader ++ [0xFE, 0x74, 0x31, 0x00] ++
    0xFF :: u64le 7 ++ 0x13 :: i32le 42

/-- Stream states reachable from a fresh stream: unopened, or opened with
the header at the front. -/
def streamWf (s : Option (List Nat)) : Prop :=
  s = none ∨ ∃ r, s = some (traceHeader ++ r)

theorem getFd_header (s : Option (List Nat)) (h : streamWf s) :
    ∃ r, aardwolf_get_fd s = traceHeader ++ r := by
  rcases h with h | ⟨r, h⟩
  · exact ⟨[], by simp [h, aardwolf_get_fd]⟩
  · exact ⟨r, by simp [h, aardwolf_get_fd]⟩

theorem runCalls_header (calls : List ApiCall) (s : Option (List Nat))
    (h : streamWf s) :
    streamWf (runCalls calls s) ∧
      (calls ≠ [] → ∃ r, runCalls calls s = some (traceHeader ++ r)) := by
  induction calls generalizing s with
  | nil => exact ⟨h, fun hne => absurd rfl hne⟩
  | cons c rest ih =>
      have hstep : ∃ r', (match c with
          | ApiCall.stmt id => aardwolf_write_statement id s
          | ApiCall.ext name => aardwolf_write_external name s
          | ApiCall.dataI32 v => aardwolf_write_data_i32 v s) =
          some (traceHeader ++ r') := by
        obtain ⟨r, hr⟩ := getFd_header s h
        cases c with
        | stmt id =>
            exact ⟨r ++ 0xFF :: u64le (id % 2 ^ 64), by
              simp [aardwolf_write_statement, aardwolf_write_data, hr]⟩
        | ext name =>
            exact ⟨r ++ 0xFE :: (name ++ [0]), by
              simp [aardwolf_write_external, hr]⟩
        | dataI32 v =>
            exact ⟨r ++ 0x13 :: i32le v, by
              simp [aardwolf_write_data_i32, aardwolf_write_data, hr]⟩
      obtain ⟨r', hr'⟩ := hstep
      have hwf : streamWf (some (traceHeader ++ r')) := Or.inr ⟨r', rfl⟩
      have := ih (s := some (traceHeader ++ r')) hwf
      refine ⟨by simpa [runCalls, hr'] using this.1, fun _ => ?_⟩
      rcases rest.eq_nil_or_concat with hrest | ⟨l, x, hrest⟩
      · subst hrest
        exact ⟨r', by simpa [runCalls] using hr'⟩
      · have hne : rest ≠ [] := by simp [hrest]
        obtain ⟨r'', hr''⟩ := (this.2) hne
        exact ⟨r'', by simpa [runCalls, hr'] using hr''⟩

/-- C1: the scenario `aardwolf_write_external("t1");
aardwolf_write_statement(7,3); aardwolf_write_data_i32(42)` on a fresh
stream yields the header, the external record, then `0xFF` followed by only
the 8 little-endian bytes of the first argument (7), then `0x13` and the
4 bytes of 42 — not the 16-byte `(fileId, stmtId)` payload the claim (and
runtime.h's two-parameter prototype) requires: the statement record drops
the stmtId 3. -/
theorem write_statement_drops_stmt_id :
    scenarioTrace = scenarioCodeBytes ∧ scenarioTrace ≠ scenarioClaimBytes := by
  constructor <;> decide

/-- C8 counterexample: the runtime's output filename literal is
`"aard.trace"`, not `"!execution-trace.aard"`, both without and with the
`AARDWOLF_DATA_DEST` directory. -/
theorem tracePath_not_execution_trace :
    tracePath none = "aard.trace" ∧
      tracePath none ≠ "!execution-trace.aard" ∧
      tracePath (some "d") ≠ "d" ++ "/" ++ "!execution-trace.aard" := by
  refine ⟨rfl, by decide, by decide⟩

/-- C8 amended: on the first trace API call the runtime creates its output
file at `<destDir>/aard.trace` (the `AARDWOLF_DATA_DEST` directory, or the
current working directory when the variable is absent) and writes the
header `"AARD/D" '1'` before any record: after any non-empty sequence of
API calls from a fresh stream, the file content starts with the header. -/
theorem tracePath_and_lazy_header (d : String) (calls : List ApiCall)
    (h : calls ≠ []) :
    tracePath (some d) = d ++ "/" ++ "aard.trace" ∧
      tracePath none = "aard.trace" ∧
      ∃ r, runCalls calls none = some (traceHeader ++ r) :=
  ⟨rfl, rfl, (runCalls_header calls none (Or.inl rfl)).2 h⟩

/-- C8 amended, witness: instantiated with destination "out" and the single
call `aardwolf_write_statement(5)`. -/
theorem tracePath_and_lazy_header_witness :
    ([ApiCall.stmt 5] : List ApiCall) ≠ [] ∧
      (tracePath (some "out") = "out" ++ "/" ++ "aard.trace" ∧
        tracePath none = "aard.trace" ∧
        ∃ r, runCalls [ApiCall.stmt 5] none = some (traceHeader ++ r)) :=
  ⟨by decide, tracePath_and_lazy_header "out" [ApiCall.stmt 5] (by decide)⟩

/-! ### IR value model (`src/frontends/llvm`)

`MiniVal` is a tree model of the `llvm::Value` graph restricted to the
node kinds the detector inspects.  Distinct IR objects are given distinct
`id` fields, so structural equality of `MiniVal` coincides with LLVM's
pointer identity (LLVM uniques `ConstantInt`s, so equal literals being one
node is faithful as well). -/

mutual

inductive MiniVal where
  | alloca (id : Nat)
  | callInst (id : Nat) (isVoid : Bool) (isDbg : Bool) (args : MVList)
  | globalVar (id : Nat) (isConst : Bool)
  | gep (isStruct : Bool) (base : MiniVal) (mids : MVList) (last : MiniVal)
  | constExpr (isGEPNoOv : Bool) (op0 : MiniVal) (rest : MVList)
  | loadInst (isPtrTy : Bool) (op : MiniVal)
  | storeInst (value : MiniVal) (dest : MiniVal)
  | constInt (n : Int)
  | binInstr (id : Nat) (ops : MVList)
  | argument (id : Nat)
  | retInst (ops : MVList)
  | brCond (cond : MiniVal)
  | brUncond
  | switchInst (ops : MVList)
  | invokeInst (id : Nat) (isVoid : Bool) (args : MVList)
  deriving DecidableEq

inductive MVList where
  | nil
  | cons (head : MiniVal) (tail : MVList)
  deriving DecidableEq

end

def MVList.toList : MVList → List MiniVal
  | .nil => []
  | .cons h t => h :: t.toList

/-- `llvm::isa<llvm::User>`: every modelled node is a `User` except formal
arguments (`llvm::Argument` derives from `Value` only). -/
def isUser : MiniVal → Bool
  | .argument _ => false
  | _ => true

/-- `llvm::dyn_cast<llvm::User>`. -/
def castUser (v : MiniVal) : Option MiniVal :=
  if isUser v then some v else none

def isInstruction : MiniVal → Bool
  | .alloca _ | .callInst .. | .gep .. | .loadInst .. | .storeInst ..
  | .binInstr .. | .retInst _ | .brCond _ | .brUncond | .switchInst _
  | .invokeInst .. => true
  | _ => false

def isGlobalVariable : MiniVal → Bool
  | .globalVar .. => true
  | _ => false

def isConstantExpr : MiniVal → Bool
  | .constExpr .. => true
  | _ => false

/-- `llvm::isa<llvm::Constant>`: integer literals, constant expressions and
global variables. -/
def isConstant : MiniVal → Bool
  | .constInt _ | .constExpr .. | .globalVar .. => true
  | _ => false

/-- Operand list as the backward walk sees it.  For calls the trailing
callee operand is omitted (it is a `Function`, which the walk's
`Instruction`/`GlobalVariable`/`ConstantExpr` filter never enqueues), and
basic-block label operands of branches are omitted for the same reason. -/
def operandsOf : MiniVal → List MiniVal
  | .alloca _ => []
  | .callInst _ _ _ args => args.toList
  | .globalVar _ _ => []
  | .gep _ base mids last => base :: mids.toList ++ [last]
  | .constExpr _ op0 rest => op0 :: rest.toList
  | .loadInst _ op => [op]
  | .storeInst v d => [v, d]
  | .constInt _ => []
  | .binInstr _ ops => ops.toList
  | .argument _ => []
  | .retInst ops => ops.toList
  | .brCond c => [c]
  | .brUncond => []
  | .switchInst ops => ops.toList
  | .invokeInst _ _ args => args.toList

/-- `getNumOperands`, counting the operands `operandsOf` omits (a call's
callee; a branch's and an invoke's block-label operands). -/
def numOperands : MiniVal → Nat
  | .callInst _ _ _ args => args.toList.length + 1
  | .invokeInst _ _ args => args.toList.length + 3
  | .brUncond => 1
  | .brCond _ => 3
  | v => (operandsOf v).length

/-! ### The Access model (`include/Statement.h`, `lib/Statement.cpp`) -/

inductive AccessType where
  | Structural
  | ArrayLike
  deriving DecidableEq

mutual

/-- `Access`: `scalar v` models `Value != nullptr`; `comp ty base accessors`
models the non-scalar form with its `Type`, `Base` and `Accessors` fields. -/
inductive Access where
  | scalar (v : MiniVal)
  | comp (ty : AccessType) (base : Access) (accessors : AccList)
  deriving DecidableEq

inductive AccList where
  | nil
  | cons (head : Access) (tail : AccList)
  deriving DecidableEq

end

def AccList.toList : AccList → List Access
  | .nil => []
  | .cons h t => h :: t.toList

def AccList.ofList : List Access → AccList
  | [] => .nil
  | h :: t => .cons h (AccList.ofList t)

def AccList.length : AccList → Nat
  | .nil => 0
  | .cons _ t => t.length + 1

/-- The stored `Type` field: the scalar constructor leaves it at its
default, `AccessType::Structural`. -/
def Access.typeTag : Access → AccessType
  | .scalar _ => .Structural
  | .comp t _ _ => t

def Access.isScalar : Access → Bool
  | .scalar _ => true
  | .comp .. => false

def Access.makeScalar (v : MiniVal) : Access := .scalar v

/-- `Access::makeStructural` pushes the single field into the vector. -/
def Access.makeStructural (base field : Access) : Access :=
  .comp .Structural base (.cons field .nil)

/-- `Access::makeArrayLike` (vector overload). -/
def Access.makeArrayLike (base : Access) (idx : List Access) : Access :=
  .comp .ArrayLike base (AccList.ofList idx)

/-- `operator==` from include/Statement.h lines 68-76: scalars compare by
handle identity; non-scalars compare `Type` and `Base` only — the
`Accessors` vectors are not compared. -/
def accessEq : Access → Access → Bool
  | .scalar v1, .scalar v2 => v1 == v2
  | .comp t1 b1 _, .comp t2 b2 _ => t1 == t2 && accessEq b1 b2
  | _, _ => false

/-- `std::hash` of the enum value (libstdc++: the underlying integer). -/
def tyHash : AccessType → Nat
  | .Structural => 0
  | .ArrayLike => 1

mutual

/-- `Access::hash` from include/Statement.h lines 50-66, with
`std::hash<const llvm::Value *>` modelled by an address assignment
`addr` (libstdc++ hashes a pointer to its address) and `size_t`
arithmetic reduced modulo `2 ^ 64`. -/
def accessHash (addr : MiniVal → Nat) : Access → Nat
  | .scalar v => addr v % 2 ^ 64
  | .comp t b accs =>
      accessHashList addr accs 2
        (Nat.xor (tyHash t) (accessHash addr b * 2 ^ 1 % 2 ^ 64))

/-- The accessor loop: `h = h ^ (Accessors[i].hash() << (i + 2))`. -/
def accessHashList (addr : MiniVal → Nat) : AccList → Nat → Nat → Nat
  | .nil, _, h => h
  | .cons a rest, i, h =>
      accessHashList addr rest (i + 1)
        (Nat.xor h (accessHash addr a * 2 ^ i % 2 ^ 64))

end

/-! ### Statement detection (`lib/StatementDetection.cpp`)

The mutually recursive C++ functions `getValueAccess`, `findCompositeBase`,
`findCompositeAccessors` and `findInputs` are modelled with an explicit
fuel argument; every recursive call spends one unit.  `findInputs`'s
`std::unordered_set` result is modelled as a duplicate-free list in
insertion order (`insertAccess` drops an access already present under
structural equality; structurally equal accesses always hash alike). -/

/-- The operands the backward walk enqueues at a node it descends through:
`dyn_cast<llvm::User>` plus the `Instruction`/`GlobalVariable`/
`ConstantExpr` filter from findInputs (lines 189-199). -/
def pushableOperands (qu : MiniVal) : List MiniVal :=
  (operandsOf qu).filter
    (fun u => isInstruction u || isGlobalVariable u || isConstantExpr u)

/-- `Result.insert` on the access set. -/
def insertAccess (res : List Access) (a : Access) : List Access :=
  if res.contains a then res else res ++ [a]

mutual

/-- `getValueAccess` (StatementDetection.cpp lines 83-156): the variant
decision for a user, mirroring the dyn-cast chain. -/
def getValueAccess : Nat → MiniVal → Option Access
  | 0, _ => none
  | fuel + 1, u =>
      match u with
      | .alloca _ => some (.scalar u)
      | .callInst .. => some (.scalar u)
      | .globalVar _ isConst => if isConst then none else some (.scalar u)
      | .gep isStruct base _ last =>
          match findCompositeBase fuel base with
          | none => none
          | some b =>
              let a := findCompositeAccessors fuel last isStruct
              if isStruct then
                match a with
                | [] => none
                | f :: _ => some (Access.makeStructural b f)
              else some (Access.makeArrayLike b a)
      | .constExpr isGEPNoOv op0 _ =>
          if isGEPNoOv then
            match castUser op0 with
            | none => none
            | some x =>
                match getValueAccess fuel x with
                | some b => some (Access.makeArrayLike b [])
                | none => none
          else none
      | .loadInst isPtrTy op =>
          if isPtrTy then
            match castUser op with
            | none => none
            | some x =>
                match getValueAccess fuel x with
                | some b => some (Access.makeArrayLike b [])
                | none => none
          else none
      | _ => none

/-- `findCompositeBase` (lines 26-50), applied to the GEP's operand 0:
nested GEPs recurse; an alloca or global becomes the scalar base; any
other instruction contributes its single dataflow input, if unique. -/
def findCompositeBase : Nat → MiniVal → Option Access
  | 0, _ => none
  | fuel + 1, b =>
      match b with
      | .gep .. => getValueAccess fuel b
      | .alloca _ => some (.scalar b)
      | .globalVar .. => some (.scalar b)
      | _ =>
          if isInstruction b then
            match findInputsGo fuel b [b] [] with
            | [a] => some a
            | _ => none
          else none

/-- `findCompositeAccessors` (lines 54-81), applied to the GEP's last
operand: try it as an access; a bare constant is kept only for struct
GEPs; a non-access instruction contributes its dataflow inputs. -/
def findCompositeAccessors : Nat → MiniVal → Bool → List Access
  | 0, _, _ => []
  | fuel + 1, last, isStruct =>
      match castUser last with
      | none => []
      | some au =>
          match getValueAccess fuel au with
          | some a => [a]
          | none =>
              if isConstant au then
                if isStruct then [.scalar au] else []
              else if isInstruction au then findInputsGo fuel au [au] []
              else []

/-- The BFS loop of `findInputs` (lines 163-204): `i` is the starting
instruction, the list is the FIFO work queue.  A resolved access of a
node other than the start is collected; a store enqueues only its value
operand; anything else enqueues its filtered operands. -/
def findInputsGo : Nat → MiniVal → List MiniVal → List Access → List Access
  | 0, _, _, res => res
  | _ + 1, _, [], res => res
  | fuel + 1, i, qu :: rest, res =>
      match (if qu = i then none else getValueAccess fuel qu) with
      | some a => findInputsGo fuel i rest (insertAccess res a)
      | none =>
          match qu with
          | .storeInst value _ =>
              findInputsGo fuel i (rest ++ (castUser value).toList) res
          | _ => findInputsGo fuel i (rest ++ pushableOperands qu) res

end

/-- `findInputs`: run the BFS from the instruction itself. -/
def findInputs (fuel : Nat) (i : MiniVal) : List Access :=
  findInputsGo fuel i [i] []

/-- The fields of a detected `Statement` that `runOnInstr` fills in
(`Instr`, `In`, `Out`); `inputs` models the C++ field `In`.  Debug-location
resolution (`getStmtLoc`) is orthogonal to these fields: a statement is
registered when it additionally has a resolvable location. -/
structure Stmt where
  instr : Option MiniVal
  inputs : List Access
  out : Option Access
  deriving DecidableEq

/-- The default-constructed `Statement` returned for non-statement
instructions (`Instr == nullptr`). -/
def emptyStmt : Stmt :=
  { instr := none, inputs := [], out := none }

/-- `runOnInstr` (lines 219-281): the per-instruction classifier.  Returns,
deviating from none only for return, conditional branch, switch, invoke,
store and non-debug call instructions. -/
def runOnInstr (fuel : Nat) (i : MiniVal) : Stmt :=
  match i with
  | .retInst _ => { instr := some i, inputs := findInputs fuel i, out := none }
  | .brCond _ => { instr := some i, inputs := findInputs fuel i, out := none }
  | .brUncond => emptyStmt
  | .switchInst _ =>
      { instr := some i, inputs := findInputs fuel i, out := none }
  | .invokeInst .. =>
      { instr := some i, inputs := findInputs fuel i, out := none }
  | .storeInst _ dest =>
      { instr := some i, inputs := findInputs fuel i,
        out := (castUser dest).bind (getValueAccess fuel) }
  | .callInst _ isVoid isDbg _ =>
      if isDbg then emptyStmt
      else
        { instr := some i, inputs := findInputs fuel i,
          out := if isVoid then none else some (.scalar i) }
  | _ => emptyStmt

/-! ### Statement flags and metadata (`lib/Statement.cpp`, `lib/StaticData.cpp`) -/

/-- Whether `Instr->getOperand(0)` is an `llvm::Argument`.  `operandsOf`
lists real operands in order except a call's trailing callee and branch
block labels, which are never arguments, so its head decides this. -/
def firstOperandIsArgument (v : MiniVal) : Bool :=
  match (operandsOf v).head? with
  | some (.argument _) => true
  | _ => false

/-- `Statement::isArg` (Statement.cpp lines 89-94): the instruction has an
operand and its first operand is a formal argument; the statement kind is
not consulted. -/
def stmtIsArg (v : MiniVal) : Bool :=
  decide (numOperands v > 0) && firstOperandIsArgument v

/-- `Statement::isRet` (Statement.cpp line 96). -/
def stmtIsRet (v : MiniVal) : Bool :=
  match v with
  | .retInst _ => true
  | _ => false

/-- Modelled from the spec: `Statement::isCall` is declared in
include/Statement.h and called by `getMetadata` in StaticData.cpp, but its
definition is missing from the sources; the spec's classifier attaches the
`isCall` flag to call statements. -/
def stmtIsCall (v : MiniVal) : Bool :=
  match v with
  | .callInst .. => true
  | _ => false

/-- `getMetadata` (StaticData.cpp lines 75-91): OR together `META_ARG =
0x61`, `META_RET = 0x62`, `META_CALL = 0x64`. -/
def getMetadata (v : MiniVal) : Nat :=
  let m0 : Nat := 0
  let m1 := if stmtIsArg v then m0 ||| 0x61 else m0
  let m2 := if stmtIsRet v then m1 ||| 0x62 else m1
  if stmtIsCall v then m2 ||| 0x64 else m2

/-! ### Concrete IR snippets used by the counterexamples -/

/-- The local variable `x` (`alloca`). -/
def xAlloca : MiniVal := .alloca 1

/-- The store compiled from `x = x + 1`:
`store (add (load x) 1), x`. -/
def exStoreSelf : MiniVal :=
  .storeInst (.binInstr 10 (.cons (.loadInst false xAlloca)
    (.cons (.constInt 1) .nil))) xAlloca

/-- The array `a` and the index variable `i` (`alloca`s). -/
def aAlloca : MiniVal := .alloca 2

def iAlloca : MiniVal := .alloca 3

/-- The store compiled from `a[i] = 5`:
`store 5, (gep a, 0, (sext (load i)))`. -/
def exStoreIdx : MiniVal :=
  .storeInst (.constInt 5)
    (.gep false aAlloca (.cons (.constInt 0) .nil)
      (.binInstr 11 (.cons (.loadInst false iAlloca) .nil)))

/-- A store whose destination is directly a formal argument (`*p = 1` after
promotion): the destination fails the `dyn_cast<llvm::User>`. -/
def exStoreToArg : MiniVal := .storeInst (.constInt 1) (.argument 0)

/-- An invoke of a function returning a value. -/
def exInvokeNonVoid : MiniVal := .invokeInst 1 false .nil

/-- A call whose first actual argument is a formal argument. -/
def exCallArg : MiniVal :=
  .callInst 5 false false (.cons (.argument 0) (.cons xAlloca .nil))

/-- Two non-scalar accesses sharing variant and base but differing in
their index accessor: `a[i]` and `a[x]`. -/
def exAccessA : Access :=
  .comp .ArrayLike (.scalar aAlloca) (.cons (.scalar iAlloca) .nil)

def exAccessB : Access :=
  .comp .ArrayLike (.scalar aAlloca) (.cons (.scalar xAlloca) .nil)

/-- A concrete address assignment for the three allocas (any injective
assignment exhibits the same behaviour). -/
def exAddr : MiniVal → Nat
  | .alloca i => i
  | _ => 0

/-- C2: `operator==` (include/Statement.h lines 68-76) compares only the
variant and the bases of non-scalar accesses, never the `Accessors`: the
accesses `a[i]` and `a[x]` compare equal although their index components
differ (so they are not structurally equal), while `Access::hash` does mix
the accessors in, so the two ==-equal accesses hash differently —
violating both halves of the claim and the unordered-set contract the code
itself relies on. -/
theorem access_eq_ignores_accessors :
    accessEq exAccessA exAccessB = true ∧ exAccessA ≠ exAccessB ∧
      accessHash exAddr exAccessA ≠ accessHash exAddr exAccessB := by
  decide

theorem getValueAccess_constInt (fuel : Nat) (k : Int) :
    getValueAccess fuel (.constInt k) = none := by
  cases fuel <;> simp [getValueAccess]

theorem findInputsGo_nil (fuel : Nat) (i : MiniVal) (res : List Access) :
    findInputsGo fuel i [] res = res := by
  cases fuel <;> simp [findInputsGo]

/-- C3 counterexample: for the store `x = x + 1` the destination Access
`Scalar(x)` (the statement's `out`) is a member of `in` (collected through
the value operand's load), and for the store `a[i] = 5` the driving index
`Scalar(i)` of the ArrayLike destination is not a member of `in` (which is
empty): both conjuncts of the claim fail. -/
theorem store_destination_in_inputs :
    ((runOnInstr 32 exStoreSelf).out = some (.scalar xAlloca) ∧
        (runOnInstr 32 exStoreSelf).inputs = [.scalar xAlloca]) ∧
      (runOnInstr 32 exStoreIdx).out =
          some (Access.makeArrayLike (.scalar aAlloca) [.scalar iAlloca]) ∧
        (runOnInstr 32 exStoreIdx).inputs = [] := by
  decide

/-- C3 amended: `findInputs` on a store starts the walk only from the value
operand and never enqueues the destination operand, so a store of a
constant has empty `in` for every destination — in particular the driving
indices of an ArrayLike destination are not members of `in` on their own
account — while the destination Access itself may still enter `in` through
the value operand's dataflow, as in `x = x + 1`. -/
theorem store_inputs_from_value_operand :
    (∀ (k : Int) (d : MiniVal) (fuel : Nat),
        findInputs fuel (.storeInst (.constInt k) d) = []) ∧
      (runOnInstr 32 exStoreSelf).out = some (.scalar xAlloca) ∧
      Access.scalar xAlloca ∈ (runOnInstr 32 exStoreSelf).inputs := by
  refine ⟨fun k d fuel => ?_, by decide, by decide⟩
  cases fuel with
  | zero => rfl
  | succ f =>
      have hstep : findInputs (f + 1) (.storeInst (.constInt k) d) =
          findInputsGo f (.storeInst (.constInt k) d) [.constInt k] [] := by
        simp [findInputs, findInputsGo, castUser, isUser]
      rw [hstep]
      cases f with
      | zero => rfl
      | succ f' =>
          have h2 : findInputsGo (f' + 1) (.storeInst (.constInt k) d)
              [.constInt k] [] =
              findInputsGo f' (.storeInst (.constInt k) d) [] [] := by
            simp [findInputsGo, getValueAccess_constInt, pushableOperands,
              operandsOf]
          rw [h2, findInputsGo_nil]

/-- C6 counterexample: a store whose destination operand is directly a
formal argument fails `dyn_cast<llvm::User>` and gets `Out == nullptr`,
and an invoke of a value-returning function is registered with no `Out`
either — two statements the claim requires to have `out` present. -/
theorem store_and_invoke_without_out :
    ((runOnInstr 8 exStoreToArg).instr = some exStoreToArg ∧
        (runOnInstr 8 exStoreToArg).out = none) ∧
      (runOnInstr 8 exInvokeNonVoid).instr = some exInvokeNonVoid ∧
        (runOnInstr 8 exInvokeNonVoid).out = none := by
  decide

/-- The amended presence condition, written from the amended claim: `out`
is present exactly for a store whose destination operand resolves to an
Access and for a non-debug call instruction with a return value (invokes
and unresolvable store destinations are left without `out`). -/
def outSpec (fuel : Nat) (i : MiniVal) : Bool :=
  match i with
  | .storeInst _ d => ((castUser d).bind (getValueAccess fuel)).isSome
  | .callInst _ isVoid isDbg _ => !isVoid && !isDbg
  | _ => false

/-- C6 amended: for every instruction the classifier produces, the `out`
component is present if and only if the instruction is a store whose
destination resolves to an Access or a non-debug call with a return value;
return, branch, switch and invoke statements, and stores with an
unresolvable destination, have absent `out`. -/
theorem out_presence (fuel : Nat) (i : MiniVal) :
    ((runOnInstr fuel i).out).isSome = outSpec fuel i := by
  cases i with
  | callInst id isVoid isDbg args =>
      cases isVoid <;> cases isDbg <;> simp [runOnInstr, outSpec, emptyStmt]
  | _ => simp [runOnInstr, outSpec, emptyStmt]

/-- C9: the isArg flag is computed from the instruction's first operand
regardless of statement kind — any instruction with at least one operand
whose first operand is a formal argument is flagged, and `getMetadata`
then sets every bit of `META_ARG = 0x61` in the serialized metadata
byte. -/
theorem isArg_from_first_operand (v : MiniVal)
    (h1 : numOperands v > 0) (h2 : firstOperandIsArgument v = true) :
    stmtIsArg v = true ∧ getMetadata v &&& 0x61 = 0x61 := by
  have harg : stmtIsArg v = true := by simp [stmtIsArg, h1, h2]
  refine ⟨harg, ?_⟩
  rcases hr : stmtIsRet v <;> rcases hc : stmtIsCall v <;>
    simp [getMetadata, harg, hr, hc] <;> decide

/-- C9 witness: a call whose first actual argument is a formal argument
(not a store) is flagged isArg and serialized with the META_ARG bits. -/
theorem isArg_from_first_operand_witness :
    numOperands exCallArg > 0 ∧ firstOperandIsArgument exCallArg = true ∧
      (stmtIsArg exCallArg = true ∧ getMetadata exCallArg &&& 0x61 = 0x61) :=
  ⟨by decide, by decide, isArg_from_first_operand exCallArg (by decide) (by decide)⟩

/-! ### Statement repository (`lib/StatementRepository.cpp`)

`StmtsIdMap` is modelled as a list of entries `(instr, fileId, stmtId)` in
insertion order; instructions are numbered handles, and the platform-stable
file identity `getFileUniqueId` is an arbitrary assignment `fileIdOf`. -/

def lookupStmt (st : List (Nat × Nat × Nat)) (instr : Nat) :
    Option (Nat × Nat) :=
  match st with
  | [] => none
  | (i, fid, sid) :: rest =>
      if i = instr then some (fid, sid) else lookupStmt rest instr

/-- `StatementRepository::getStatementId` (lines 8-20): an unknown
statement receives `StmtId = StmtsIdMap.size() + 1` — one more than the
count of all statements registered so far, of whatever file — and the
fileId of its debug-location file. -/
def getStatementId (fileIdOf : String → Nat) (st : List (Nat × Nat × Nat))
    (instr : Nat) (file : String) : (Nat × Nat) × List (Nat × Nat × Nat) :=
  match lookupStmt st instr with
  | some id => (id, st)
  | none =>
      let id := (fileIdOf file, st.length + 1)
      (id, st ++ [(instr, id.1, id.2)])

/-- Register a sequence of statements `(instr, file)` in order, as the
detection pass does while walking the module. -/
def registerAllGo (fileIdOf : String → Nat) (st : List (Nat × Nat × Nat)) :
    List (Nat × String) → List (Nat × Nat × Nat)
  | [] => st
  | (instr, file) :: rest =>
      registerAllGo fileIdOf (getStatementId fileIdOf st instr file).2 rest

def registerAll (fileIdOf : String → Nat) (l : List (Nat × String)) :
    List (Nat × Nat × Nat) :=
  registerAllGo fileIdOf [] l

/-- The stmtIds assigned to the statements of the file with id `fid`, in
registration order. -/
def fileStmtIds (fid : Nat) (st : List (Nat × Nat × Nat)) : List Nat :=
  st.filterMap (fun e => if e.2.1 = fid then some e.2.2 else none)

/-- File identity used by the counterexample. -/
def exFileIdOf : String → Nat := fun f => if f = "a.c" then 100 else 200

/-- C4 counterexample: registering statements of files a.c, b.c, a.c in an
interleaved order assigns a.c the stmtIds 1 and 3 — the second statement
of a.c receives 3, not the file's count plus one (2), and a.c's ids have a
gap. -/
theorem per_file_stmt_ids_not_dense :
    fileStmtIds 100 (registerAll exFileIdOf
        [(1, "a.c"), (2, "b.c"), (3, "a.c")]) = [1, 3] ∧
      fileStmtIds 100 (registerAll exFileIdOf
        [(1, "a.c"), (2, "b.c"), (3, "a.c")]) ≠ [1, 2] := by
  decide

theorem registerAllGo_stmtIds (fileIdOf : String → Nat)
    (l : List (Nat × String)) :
    ∀ st : List (Nat × Nat × Nat),
      st.map (fun e => e.2.2) = List.range' 1 st.length →
      (registerAllGo fileIdOf st l).map (fun e => e.2.2) =
        List.range' 1 (registerAllGo fileIdOf st l).length := by
  induction l with
  | nil => intro st h; simpa [registerAllGo] using h
  | cons p rest ih =>
      intro st h
      obtain ⟨instr, file⟩ := p
      show (registerAllGo fileIdOf (getStatementId fileIdOf st instr file).2
          rest).map _ = _
      rcases hl : lookupStmt st instr with _ | id
      · refine ih _ ?_
        simp [getStatementId, hl, h, List.range'_concat, Nat.add_comm]
      · exact ih _ (by simpa [getStatementId, hl] using h)

/-- C4 amended: stmtIds are dense globally across the module, not per
file: in registration order the assigned stmtIds are exactly 1, 2, …, n
(each new statement gets the total registered count plus one), so a file's
own stmtId sequence can have gaps as soon as statements of several files
interleave. -/
theorem stmtIds_globally_dense (fileIdOf : String → Nat)
    (l : List (Nat × String)) :
    (registerAll fileIdOf l).map (fun e => e.2.2) =
      List.range' 1 (registerAll fileIdOf l).length :=
  registerAllGo_stmtIds fileIdOf l [] (by simp)

/-! ### Cross-basic-block successor walk (`lib/StatementDetection.cpp`
lines 340-375)

Basic blocks are numbered; `bounds b` is the `BBBounds` entry of block `b`
(`none` for an empty block, otherwise the ids of its first and last
statement); `preds b` its predecessor list.  The inner `while (!BBPred.empty())`
loop is modelled with fuel: one unit per iteration, `none` when the fuel
runs out with the queue still non-empty — the code has no visited set, so
a `none` for every fuel is an infinite loop. -/

structure MiniCFG where
  bounds : Nat → Option (Nat × Nat)
  preds : Nat → List Nat

/-- The predecessor walk for one non-empty block whose first statement is
`bFirst`: an empty predecessor enqueues its own predecessors, a non-empty
one contributes the successor edge `(P.lastStmt, bFirst)`. -/
def walkPreds (cfg : MiniCFG) (bFirst : Nat) :
    Nat → List Nat → List (Nat × Nat) → Option (List (Nat × Nat))
  | _ + 1, [], acc => some acc
  | fuel + 1, p :: rest, acc =>
      (match cfg.bounds p with
       | none => walkPreds cfg bFirst fuel (rest ++ cfg.preds p) acc
       | some (_, pLast) => walkPreds cfg bFirst fuel rest (acc ++ [(pLast, bFirst)]))
  | 0, [], acc => some acc
  | 0, _ :: _, _ => none

/-- Block 0 is non-empty (its only statement has id 10); block 1 is empty
and its own predecessor — e.g. a block whose conditional branch carries no
debug location, looping to itself — and it precedes block 0. -/
def exCFG : MiniCFG :=
  { bounds := fun b => if b = 0 then some (10, 10) else none
    preds := fun b => if b = 0 then [1] else if b = 1 then [1] else [] }

/-- C5: the predecessor walk of StatementDetection.cpp has no visited set,
and on a CFG where an empty block is its own predecessor the queue never
empties: the loop re-enqueues block 1 forever, so no amount of fuel makes
the walk finish — the claimed termination guard does not exist in the
code. -/
theorem walkPreds_no_cycle_guard :
    ∀ (fuel : Nat) (acc : List (Nat × Nat)),
      walkPreds exCFG 10 fuel (exCFG.preds 0) acc = none := by
  intro fuel
  induction fuel with
  | zero => intro acc; rfl
  | succ f ih =>
      intro acc
      show walkPreds exCFG 10 (f + 1) [1] acc = none
      have h1 : exCFG.bounds 1 = none := rfl
      have h2 : ([] : List Nat) ++ exCFG.preds 1 = [1] := rfl
      simpa [walkPreds, h1, h2] using ih acc

/-! ### Serializer and driver error flow (`lib/StaticData.cpp`,
`cli/Main.cpp`) -/

/-- `StaticDataBase::runBase` (StaticData.cpp lines 156-203) around the
output stream: when the `.aard` file cannot be opened (`EC`), it prints
the message and returns `false` — the very value it also returns after a
complete, successful serialization; nothing is written.  `artifact` stands
for the bytes a successful run emits. -/
def staticDataRunBase (openFailed : Bool) (artifact : List Nat) :
    Bool × Option (List Nat) :=
  if openFailed then (false, none) else (false, some artifact)

/-- `main` (cli/Main.cpp lines 58-98): exit 1 only when the input bitcode
cannot be parsed or `!instrumented.bc` cannot be created; the pass
pipeline's outcome — including the serializer's — is not consulted. -/
def mainExitCode (parseOk instrOutOk openFailed : Bool)
    (artifact : List Nat) : Nat :=
  if !parseOk then 1
  else if !instrOutOk then 1
  else
    let _ := staticDataRunBase openFailed artifact
    0

/-- C7 counterexample: with a well-formed input and a writable output
directory but an unopenable `.aard` file, the serializer's return value is
indistinguishable from success and the driver exits 0, not non-zero. -/
theorem aard_io_failure_exit_zero :
    mainExitCode true true true [] = 0 ∧
      (staticDataRunBase true []).1 = (staticDataRunBase false []).1 := by
  decide

/-- C7 amended: the serializer does not fail fast — on an unopenable
`.aard` file it writes nothing and returns `false` exactly as on success,
and the driver's exit code stays 0 regardless; the only non-zero driver
exits are a parse failure and an unopenable `!instrumented.bc`. -/
theorem serializer_failure_not_propagated (openFailed : Bool)
    (artifact : List Nat) :
    (staticDataRunBase openFailed artifact).1 = false ∧
      ((staticDataRunBase openFailed artifact).2 = none ↔ openFailed = true) ∧
      mainExitCode true true openFailed artifact = 0 ∧
      mainExitCode false true openFailed artifact = 1 ∧
      mainExitCode true false openFailed artifact = 1 := by
  cases openFailed <;> simp [staticDataRunBase, mainExitCode]

/-! ### Access export (`lib/StaticData.cpp` lines 53-73) and the
single-field invariant -/

mutual

/-- Every Structural node in the access tree carries exactly one accessor
(the shape `Access::makeStructural` produces). -/
def wfAccess : Access → Bool
  | .scalar _ => true
  | .comp t b accs =>
      (match t with
       | .Structural => accs.length == 1
       | .ArrayLike => true) && wfAccess b && wfAccessList accs

def wfAccessList : AccList → Bool
  | .nil => true
  | .cons a rest => wfAccess a && wfAccessList rest

end

mutual

/-- `exportAccess`: scalars are caught by the `isScalar` branch (token
0xE0 and the valueId); a Structural access emits 0xE1, its base and
`getAccessors()[0]` — reading `[0]` of an empty vector is undefined
behaviour, modelled as `none`; an ArrayLike access emits 0xE2, its base,
the index count and the indices.  `vid` models `Repo.getValueId`. -/
def exportAccess (vid : MiniVal → Nat) : Access → Option (List Nat)
  | .scalar v => some (0xE0 :: u64le (vid v % 2 ^ 64))
  | .comp .Structural b accs =>
      match accs with
      | .nil => none
      | .cons f _ =>
          match exportAccess vid b, exportAccess vid f with
          | some bb, some fb => some (0xE1 :: (bb ++ fb))
          | _, _ => none
  | .comp .ArrayLike b accs =>
      match exportAccess vid b, exportAccessList vid accs with
      | some bb, some ab =>
          some (0xE2 :: (bb ++ u32le accs.length ++ ab))
      | _, _ => none

def exportAccessList (vid : MiniVal → Nat) : AccList → Option (List Nat)
  | .nil => some []
  | .cons a rest =>
      match exportAccess vid a, exportAccessList vid rest with
      | some x, some xs => some (x ++ xs)
      | _, _ => none

end

theorem wfAccessList_ofList (l : List Access) :
    wfAccessList (AccList.ofList l) = true ↔ ∀ x ∈ l, wfAccess x = true := by
  induction l with
  | nil => simp [AccList.ofList, wfAccessList]
  | cons a rest ih => simp [AccList.ofList, wfAccessList, ih]

theorem mem_insertAccess {res : List Access} {a x : Access}
    (h : x ∈ insertAccess res a) : x ∈ res ∨ x = a := by
  by_cases hc : a ∈ res
  · exact Or.inl (by simpa [insertAccess, hc] using h)
  · simpa [insertAccess, hc] using h

theorem singletonResult {l : List Access} {a : Access}
    (h : (match l with
          | [a'] => some a'
          | _ => none) = some a) : a ∈ l := by
  rcases l with _ | ⟨x, _ | ⟨y, tl⟩⟩ <;> simp_all

theorem wf_invariant : ∀ fuel : Nat,
    (∀ u a, getValueAccess fuel u = some a → wfAccess a = true) ∧
    (∀ b a, findCompositeBase fuel b = some a → wfAccess a = true) ∧
    (∀ last isStruct a, a ∈ findCompositeAccessors fuel last isStruct →
        wfAccess a = true) ∧
    (∀ i q res, (∀ x ∈ res, wfAccess x = true) →
        ∀ a ∈ findInputsGo fuel i q res, wfAccess a = true) := by
  intro fuel
  induction fuel with
  | zero =>
      refine ⟨?_, ?_, ?_, ?_⟩
      · intro u a h; simp [getValueAccess] at h
      · intro b a h; simp [findCompositeBase] at h
      · intro last isStruct a h; simp [findCompositeAccessors] at h
      · intro i q res hres a ha
        exact hres a (by simpa [findInputsGo] using ha)
  | succ f ih =>
      obtain ⟨ih1, ih2, ih3, ih4⟩ := ih
      refine ⟨?_, ?_, ?_, ?_⟩
      · intro u a h
        cases u with
        | alloca id =>
            simp only [getValueAccess, Option.some.injEq] at h
            simp [← h, wfAccess]
        | callInst id isVoid isDbg args =>
            simp only [getValueAccess, Option.some.injEq] at h
            simp [← h, wfAccess]
        | globalVar id isConst =>
            cases isConst with
            | true => simp [getValueAccess] at h
            | false =>
                simp only [getValueAccess, Bool.false_eq_true, if_false,
                  Option.some.injEq] at h
                simp [← h, wfAccess]
        | gep isStruct base mids last =>
            simp only [getValueAccess] at h
            rcases hb : findCompositeBase f base with _ | b
            · rw [hb] at h; simp at h
            · rw [hb] at h
              have hwb := ih2 base b hb
              cases isStruct with
              | false =>
                  simp only [Bool.false_eq_true, if_false,
                    Option.some.injEq] at h
                  rw [← h]
                  simp only [Access.makeArrayLike, wfAccess, Bool.and_eq_true]
                  refine ⟨⟨by trivial, hwb⟩, ?_⟩
                  rw [wfAccessList_ofList]
                  intro x hx
                  exact ih3 last false x hx
              | true =>
                  rcases hacc : findCompositeAccessors f last true
                    with _ | ⟨f0, tl⟩
                  · rw [hacc] at h; simp at h
                  · rw [hacc] at h
                    simp only [if_true, Option.some.injEq] at h
                    rw [← h]
                    have hf0 : wfAccess f0 = true :=
                      ih3 last true f0 (by rw [hacc]; exact List.mem_cons_self f0 tl)
                    simp [Access.makeStructural, wfAccess, wfAccessList,
                      AccList.length, hwb, hf0]
        | constExpr isGEPNoOv op0 rest =>
            cases isGEPNoOv with
            | false => simp [getValueAccess] at h
            | true =>
                rcases hcu : castUser op0 with _ | x
                · simp [getValueAccess, hcu] at h
                · simp only [getValueAccess, if_true, hcu] at h
                  rcases hx : getValueAccess f x with _ | bb
                  · simp [hx] at h
                  · simp only [hx, Option.some.injEq] at h
                    rw [← h]
                    simp [Access.makeArrayLike, AccList.ofList, wfAccess,
                      wfAccessList, ih1 x bb hx]
        | loadInst isPtrTy op =>
            cases isPtrTy with
            | false => simp [getValueAccess] at h
            | true =>
                rcases hcu : castUser op with _ | x
                · simp [getValueAccess, hcu] at h
                · simp only [getValueAccess, if_true, hcu] at h
                  rcases hx : getValueAccess f x with _ | bb
                  · simp [hx] at h
                  · simp only [hx, Option.some.injEq] at h
                    rw [← h]
                    simp [Access.makeArrayLike, AccList.ofList, wfAccess,
                      wfAccessList, ih1 x bb hx]
        | storeInst v d => simp [getValueAccess] at h
        | constInt n => simp [getValueAccess] at h
        | binInstr id ops => simp [getValueAccess] at h
        | argument id => simp [getValueAccess] at h
        | retInst ops => simp [getValueAccess] at h
        | brCond c => simp [getValueAccess] at h
        | brUncond => simp [getValueAccess] at h
        | switchInst ops => simp [getValueAccess] at h
        | invokeInst id isVoid args => simp [getValueAccess] at h
      · intro b a h
        cases b with
        | gep isStruct base mids last =>
            simp only [findCompositeBase] at h
            exact ih1 _ a h
        | alloca id =>
            simp only [findCompositeBase, Option.some.injEq] at h
            simp [← h, wfAccess]
        | globalVar id isConst =>
            simp only [findCompositeBase, Option.some.injEq] at h
            simp [← h, wfAccess]
        | callInst id isVoid isDbg args =>
            simp only [findCompositeBase, isInstruction, if_true] at h
            exact ih4 _ _ [] (by simp) a (singletonResult h)
        | loadInst isPtrTy op =>
            simp only [findCompositeBase, isInstruction, if_true] at h
            exact ih4 _ _ [] (by simp) a (singletonResult h)
        | storeInst v d =>
            simp only [findCompositeBase, isInstruction, if_true] at h
            exact ih4 _ _ [] (by simp) a (singletonResult h)
        | binInstr id ops =>
            simp only [findCompositeBase, isInstruction, if_true] at h
            exact ih4 _ _ [] (by simp) a (singletonResult h)
        | retInst ops =>
            simp only [findCompositeBase, isInstruction, if_true] at h
            exact ih4 _ _ [] (by simp) a (singletonResult h)
        | brCond c =>
            simp only [findCompositeBase, isInstruction, if_true] at h
            exact ih4 _ _ [] (by simp) a (singletonResult h)
        | brUncond =>
            simp only [findCompositeBase, isInstruction, if_true] at h
            exact ih4 _ _ [] (by simp) a (singletonResult h)
        | switchInst ops =>
            simp only [findCompositeBase, isInstruction, if_true] at h
            exact ih4 _ _ [] (by simp) a (singletonResult h)
        | invokeInst id isVoid args =>
            simp only [findCompositeBase, isInstruction, if_true] at h
            exact ih4 _ _ [] (by simp) a (singletonResult h)
        | constExpr isGEPNoOv op0 rest =>
            simp [findCompositeBase, isInstruction] at h
        | constInt n => simp [findCompositeBase, isInstruction] at h
        | argument id => simp [findCompositeBase, isInstruction] at h
      · intro last isStruct a ha
        rcases hcu : castUser last with _ | au
        · simp [findCompositeAccessors, hcu] at ha
        · simp only [findCompositeAccessors, hcu] at ha
          rcases hv : getValueAccess f au with _ | acc
          · simp only [hv] at ha
            by_cases hconst : isConstant au = true
            · rw [if_pos hconst] at ha
              cases isStruct with
              | true =>
                  simp only [if_true, List.mem_singleton] at ha
                  simp [ha, wfAccess]
              | false => simp at ha
            · rw [if_neg hconst] at ha
              by_cases hinstr : isInstruction au = true
              · rw [if_pos hinstr] at ha
                exact ih4 _ _ [] (by simp) a ha
              · rw [if_neg hinstr] at ha; simp at ha
          · simp only [hv, List.mem_singleton] at ha
            rw [ha]
            exact ih1 au acc hv
      · intro i q res hres a ha
        cases q with
        | nil =>
            exact hres a (by simpa [findInputsGo] using ha)
        | cons qu rest =>
            simp only [findInputsGo] at ha
            rcases hv : (if qu = i then none else getValueAccess f qu)
              with _ | acc
            · rw [hv] at ha
              cases qu with
              | storeInst v d => exact ih4 _ _ _ hres a ha
              | alloca id => exact ih4 _ _ _ hres a ha
              | callInst id isVoid isDbg args => exact ih4 _ _ _ hres a ha
              | globalVar id isConst => exact ih4 _ _ _ hres a ha
              | gep isStruct base mids last => exact ih4 _ _ _ hres a ha
              | constExpr isGEPNoOv op0 rest2 => exact ih4 _ _ _ hres a ha
              | loadInst isPtrTy op => exact ih4 _ _ _ hres a ha
              | constInt n => exact ih4 _ _ _ hres a ha
              | binInstr id ops => exact ih4 _ _ _ hres a ha
              | argument id => exact ih4 _ _ _ hres a ha
              | retInst ops => exact ih4 _ _ _ hres a ha
              | brCond c => exact ih4 _ _ _ hres a ha
              | brUncond => exact ih4 _ _ _ hres a ha
              | switchInst ops => exact ih4 _ _ _ hres a ha
              | invokeInst id isVoid args => exact ih4 _ _ _ hres a ha
            · rw [hv] at ha
              have hacc : wfAccess acc = true := by
                by_cases hqi : qu = i
                · rw [if_pos hqi] at hv; exact absurd hv (by simp)
                · rw [if_neg hqi] at hv; exact ih1 qu acc hv
              refine ih4 _ _ _ ?_ a ha
              intro x hx
              rcases mem_insertAccess hx with hx' | hx'
              · exact hres x hx'
              · rw [hx']; exact hacc

theorem wfAccess_comp_base {t : AccessType} {b : Access} {accs : AccList}
    (h : wfAccess (.comp t b accs) = true) : wfAccess b = true := by
  simp only [wfAccess, Bool.and_eq_true] at h
  exact h.1.2

theorem wfAccess_comp_list {t : AccessType} {b : Access} {accs : AccList}
    (h : wfAccess (.comp t b accs) = true) : wfAccessList accs = true := by
  simp only [wfAccess, Bool.and_eq_true] at h
  exact h.2

theorem wfAccessList_head {a : Access} {rest : AccList}
    (h : wfAccessList (.cons a rest) = true) : wfAccess a = true := by
  simp only [wfAccessList, Bool.and_eq_true] at h
  exact h.1

theorem wfAccessList_tail {a : Access} {rest : AccList}
    (h : wfAccessList (.cons a rest) = true) : wfAccessList rest = true := by
  simp only [wfAccessList, Bool.and_eq_true] at h
  exact h.2

mutual

theorem export_total (vid : MiniVal → Nat) :
    ∀ a : Access, wfAccess a = true → (exportAccess vid a).isSome = true
  | .scalar v, _ => by simp [exportAccess]
  | .comp .Structural b accs, h => by
      rcases accs with _ | ⟨f0, tl⟩
      · simp [wfAccess, AccList.length] at h
      · have h1 := export_total vid b (wfAccess_comp_base h)
        have h2 := export_total vid f0 (wfAccessList_head (wfAccess_comp_list h))
        simp only [exportAccess]
        rcases hbb : exportAccess vid b with _ | bb
        · rw [hbb] at h1; simp at h1
        · rcases hff : exportAccess vid f0 with _ | fb
          · rw [hff] at h2; simp at h2
          · simp [hbb, hff]
  | .comp .ArrayLike b accs, h => by
      have h1 := export_total vid b (wfAccess_comp_base h)
      have h2 := exportList_total vid accs (wfAccess_comp_list h)
      simp only [exportAccess]
      rcases hbb : exportAccess vid b with _ | bb
      · rw [hbb] at h1; simp at h1
      · rcases hll : exportAccessList vid accs with _ | ab
        · rw [hll] at h2; simp at h2
        · simp [hbb, hll]

theorem exportList_total (vid : MiniVal → Nat) :
    ∀ l : AccList, wfAccessList l = true → (exportAccessList vid l).isSome = true
  | .nil, _ => by simp [exportAccessList]
  | .cons a rest, h => by
      have h1 := export_total vid a (wfAccessList_head h)
      have h2 := exportList_total vid rest (wfAccessList_tail h)
      simp only [exportAccessList]
      rcases ha : exportAccess vid a with _ | x
      · rw [ha] at h1; simp at h1
      · rcases hr : exportAccessList vid rest with _ | xs
        · rw [hr] at h2; simp at h2
        · simp [ha, hr]

end

/-- The pointer parameter `p` and the field access `p->field2` compiled to
`gep (load p), 2` over a struct type. -/
def pAlloca : MiniVal := .alloca 7

def exStructGep : MiniVal :=
  .gep true (.loadInst true pAlloca) .nil (.constInt 2)

def exStructAccess : Access :=
  Access.makeStructural (.scalar pAlloca) (.scalar (.constInt 2))

/-- C10: every Access the detector resolves satisfies the single-field
invariant — a Structural node always carries exactly one accessor, the
shape `Access::makeStructural` produces — so the serializer's
unconditional read of `getAccessors()[0]` in the Structural branch of
`exportAccess` is always in bounds (the encoder is total on detector
accesses), and a Scalar access is encoded by the `isScalar` branch with
token 0xE0 even though its stored type tag defaults to Structural. -/
theorem structural_access_single_field :
    (∀ (fuel : Nat) (u : MiniVal) (a : Access),
        getValueAccess fuel u = some a → wfAccess a = true) ∧
      (∀ (vid : MiniVal → Nat) (a : Access), wfAccess a = true →
          (exportAccess vid a).isSome = true) ∧
      (∀ (vid : MiniVal → Nat) (v : MiniVal),
          exportAccess vid (.scalar v) =
              some (0xE0 :: u64le (vid v % 2 ^ 64)) ∧
            Access.typeTag (.scalar v) = AccessType.Structural) :=
  ⟨fun fuel u a h => (wf_invariant fuel).1 u a h,
   fun vid a h => export_total vid a h,
   fun _ _ => ⟨rfl, rfl⟩⟩

/-- C10 witness: the access resolved for `p->field2` is Structural with a
single accessor, and the serializer encodes it. -/
theorem structural_access_single_field_witness :
    wfAccess exStructAccess = true ∧
      (exportAccess (fun _ => 0) exStructAccess).isSome = true :=
  have h1 : wfAccess exStructAccess = true :=
    structural_access_single_field.1 16 exStructGep exStructAccess (by decide)
  ⟨h1, structural_access_single_field.2.1 (fun _ => 0) exStructAccess h1⟩

end Aardwolf












